import Mathlib

/-!
A verification development for the ratatui-json-editor sample: a shallow
embedding in Lean 4 of the key-value editing state machine from
src/ratatui-json-editor/src/app.rs and src/ratatui-json-editor/src/main.rs,
together with theorems about its transition behaviour.
-/

namespace JsonEditor

/-- Screen enumeration, from app.rs (CurrentScreen). -/
inductive CurrentScreen where
  | Main
  | Editing
  | Exiting
deriving DecidableEq, Repr

/-- Field-being-edited enumeration, from app.rs (CurrentlyEditing). -/
inductive CurrentlyEditing where
  | Key
  | Value
deriving DecidableEq, Repr

/-- Model of std HashMap insert used by App::save_key_value: the new binding
is placed in front and any existing binding for the same key is removed, so
lookup finds the newest value and keys stay unique. -/
def hashInsert (m : List (String × String)) (k v : String) :
    List (String × String) :=
  (k, v) :: m.filter (fun p => !(p.1 == k))

/-- Application state, from app.rs (struct App). The pairs HashMap is
modelled as a key-unique association list. -/
structure App where
  key_input : String
  value_input : String
  pairs : List (String × String)
  current_screen : CurrentScreen
  currently_editing : Option CurrentlyEditing
deriving DecidableEq, Repr

/-- App::new from app.rs: all-empty defaults. -/
def App.new : App :=
  { key_input := ""
    value_input := ""
    pairs := []
    current_screen := CurrentScreen.Main
    currently_editing := none }

/-- App::save_key_value from app.rs: insert the two buffers as a pair and
reset the editing state. -/
def App.save_key_value (a : App) : App :=
  { a with
    pairs := hashInsert a.pairs a.key_input a.value_input
    key_input := ""
    value_input := ""
    currently_editing := none }

/-- App::toggle_editing from app.rs: swap Key and Value when a field is
set; default to Key when none is set. -/
def App.toggle_editing (a : App) : App :=
  match a.currently_editing with
  | some CurrentlyEditing.Key =>
      { a with currently_editing := some CurrentlyEditing.Value }
  | some CurrentlyEditing.Value =>
      { a with currently_editing := some CurrentlyEditing.Key }
  | none =>
      { a with currently_editing := some CurrentlyEditing.Key }

/-- Key codes consumed by run_app in main.rs: printable characters, Enter,
Backspace, Esc, Tab, and a catch-all for every other code. -/
inductive KeyCode where
  | Char (c : Char)
  | Enter
  | Backspace
  | Esc
  | Tab
  | Other
deriving DecidableEq, Repr

/-- Press-or-release kind of a key event, the pair the core consumes from
the input source. -/
inductive KeyEventKind where
  | Press
  | Release
deriving DecidableEq, Repr

/-- A keyboard event as seen by run_app. -/
structure KeyEvent where
  code : KeyCode
  kind : KeyEventKind
deriving DecidableEq, Repr

/-- An input event: a key event, or any non-key event (mouse, resize, ...)
which the if-let in run_app skips. -/
inductive Event where
  | Key (k : KeyEvent)
  | NonKey
deriving DecidableEq, Repr

/-- Outcome of dispatching one event, following the spec's names:
Continue keeps looping, ExitDiscard is run_app returning Ok(false),
ExitAndEmit is run_app returning Ok(true). -/
inductive DispatchResult where
  | Continue
  | ExitDiscard
  | ExitAndEmit
deriving DecidableEq, Repr

/-- One iteration of the event match in run_app (main.rs lines 65-167):
given the current state and one event, the new state and the loop outcome.
Non-key events fail the if-let; release events hit the skip at the top.
The Backspace arm reproduces the source's duplicated match pattern, which
routes Backspace to the key buffer regardless of which field is active. -/
def dispatch (a : App) (ev : Event) : App × DispatchResult :=
  match ev with
  | Event.NonKey => (a, DispatchResult.Continue)
  | Event.Key key =>
    if key.kind = KeyEventKind.Release then
      (a, DispatchResult.Continue)
    else
      match a.current_screen with
      | CurrentScreen.Main =>
        match key.code with
        | KeyCode.Char c =>
          if c = 'e' then
            ({ a with
                current_screen := CurrentScreen.Editing
                currently_editing := some CurrentlyEditing.Key },
              DispatchResult.Continue)
          else if c = 'q' then
            ({ a with current_screen := CurrentScreen.Exiting },
              DispatchResult.Continue)
          else
            (a, DispatchResult.Continue)
        | _ => (a, DispatchResult.Continue)
      | CurrentScreen.Exiting =>
        match key.code with
        | KeyCode.Char c =>
          if c = 'y' then
            (a, DispatchResult.ExitAndEmit)
          else if c = 'n' then
            (a, DispatchResult.ExitDiscard)
          else if c = 'q' then
            (a, DispatchResult.ExitDiscard)
          else
            (a, DispatchResult.Continue)
        | _ => (a, DispatchResult.Continue)
      | CurrentScreen.Editing =>
        if key.kind = KeyEventKind.Press then
          match key.code with
          | KeyCode.Enter =>
            match a.currently_editing with
            | some CurrentlyEditing.Key =>
              ({ a with currently_editing := some CurrentlyEditing.Value },
                DispatchResult.Continue)
            | some CurrentlyEditing.Value =>
              ({ a.save_key_value with
                  current_screen := CurrentScreen.Main },
                DispatchResult.Continue)
            | none => (a, DispatchResult.Continue)
          | KeyCode.Backspace =>
            match a.currently_editing with
            | some CurrentlyEditing.Key =>
              ({ a with key_input := a.key_input.dropRight 1 },
                DispatchResult.Continue)
            | some CurrentlyEditing.Value =>
              ({ a with key_input := a.key_input.dropRight 1 },
                DispatchResult.Continue)
            | none => (a, DispatchResult.Continue)
          | KeyCode.Esc =>
            ({ a with
                current_screen := CurrentScreen.Main
                currently_editing := none },
              DispatchResult.Continue)
          | KeyCode.Tab =>
            (a.toggle_editing, DispatchResult.Continue)
          | KeyCode.Char v =>
            match a.currently_editing with
            | some CurrentlyEditing.Key =>
              ({ a with key_input := a.key_input.push v },
                DispatchResult.Continue)
            | some CurrentlyEditing.Value =>
              ({ a with value_input := a.value_input.push v },
                DispatchResult.Continue)
            | none => (a, DispatchResult.Continue)
          | KeyCode.Other => (a, DispatchResult.Continue)
        else
          (a, DispatchResult.Continue)

/-- The run_app loop over a finite supply of events: dispatch each in turn,
stopping at the first terminal result; none means the supply ran out with
the loop still going. -/
def run_app (a : App) : List Event → Option (App × DispatchResult)
  | [] => none
  | e :: es =>
    match dispatch a e with
    | (a2, DispatchResult.Continue) => run_app a2 es
    | (a2, DispatchResult.ExitDiscard) => some (a2, DispatchResult.ExitDiscard)
    | (a2, DispatchResult.ExitAndEmit) => some (a2, DispatchResult.ExitAndEmit)

/-- The post-loop step of main (main.rs lines 40-46): when run_app returned
Ok(true) the serializer (App::print_json) is invoked with the final pairs;
otherwise it is never invoked. Returns the Mapping handed to the serializer,
or none when the serializer is not called. -/
def mainSerializerArg (es : List Event) : Option (List (String × String)) :=
  match run_app App.new es with
  | some (a, DispatchResult.ExitAndEmit) => some a.pairs
  | _ => none

/-- Iterating dispatch over an event list, ignoring the loop outcome:
the set of states reachable by dispatching events from a start state. -/
def runEvents (a : App) (es : List Event) : App :=
  es.foldl (fun s e => (dispatch s e).1) a

/-- A press of the given key code. -/
def press (c : KeyCode) : Event :=
  Event.Key { code := c, kind := KeyEventKind.Press }

/-- A press of the given printable character. -/
def pressChar (c : Char) : Event :=
  press (KeyCode.Char c)

end JsonEditor

namespace JsonEditor

/-- Sample state used as concrete input in witnesses: editing the value of
the pair ("ab", "1"). -/
def sampleValueState : App :=
  { key_input := "ab"
    value_input := "1"
    pairs := []
    current_screen := CurrentScreen.Editing
    currently_editing := some CurrentlyEditing.Value }

/-- C1: with Screen = Editing and EditingField = Value, Enter inserts the
pre-commit (key_input, value_input) pair into the Mapping, empties both
buffers, and sets Screen = Main and EditingField = None. -/
theorem enter_commit_saves_pair (a : App)
    (hs : a.current_screen = CurrentScreen.Editing)
    (he : a.currently_editing = some CurrentlyEditing.Value) :
    dispatch a (press KeyCode.Enter) =
      ({ key_input := ""
         value_input := ""
         pairs := hashInsert a.pairs a.key_input a.value_input
         current_screen := CurrentScreen.Main
         currently_editing := none }, DispatchResult.Continue) := by
  obtain ⟨ki, vi, ps, scr, ed⟩ := a
  simp only at hs he
  subst hs; subst he
  simp [dispatch, press, App.save_key_value]

/-- Witness for C1 at the concrete state sampleValueState. -/
theorem enter_commit_saves_pair_witness :
    dispatch sampleValueState (press KeyCode.Enter) =
      ({ key_input := ""
         value_input := ""
         pairs := hashInsert sampleValueState.pairs "ab" "1"
         current_screen := CurrentScreen.Main
         currently_editing := none }, DispatchResult.Continue) :=
  enter_commit_saves_pair sampleValueState rfl rfl

/-- An event whose kind is not a key press: a non-key event, or a key
release. -/
def nonPressEvent : Event → Bool
  | Event.NonKey => true
  | Event.Key k => k.kind == KeyEventKind.Release

/-- C4: dispatching any event that is not a key press returns Continue with
the state unchanged, on every screen alike. -/
theorem non_press_is_identity (a : App) (ev : Event)
    (h : nonPressEvent ev = true) :
    dispatch a ev = (a, DispatchResult.Continue) := by
  cases ev with
  | NonKey => rfl
  | Key k =>
    simp only [nonPressEvent, beq_iff_eq] at h
    simp [dispatch, h]

/-- Witness for C4 at the initial state and a key-release event. -/
theorem non_press_is_identity_witness :
    dispatch App.new (Event.Key { code := KeyCode.Enter, kind := KeyEventKind.Release }) =
      (App.new, DispatchResult.Continue) :=
  non_press_is_identity App.new
    (Event.Key { code := KeyCode.Enter, kind := KeyEventKind.Release }) rfl

/-- C5: on the Exiting screen, 'y' yields ExitAndEmit with the state
unchanged, 'n' and 'q' yield ExitDiscard, and every other key is a no-op
that stays on Exiting and yields Continue. -/
theorem exiting_screen_transitions (a : App)
    (hs : a.current_screen = CurrentScreen.Exiting) :
    dispatch a (pressChar 'y') = (a, DispatchResult.ExitAndEmit) ∧
    dispatch a (pressChar 'n') = (a, DispatchResult.ExitDiscard) ∧
    dispatch a (pressChar 'q') = (a, DispatchResult.ExitDiscard) ∧
    (∀ c : Char, c ≠ 'y' → c ≠ 'n' → c ≠ 'q' →
      dispatch a (pressChar c) = (a, DispatchResult.Continue)) ∧
    (∀ k : KeyCode, (∀ c : Char, k ≠ KeyCode.Char c) →
      dispatch a (press k) = (a, DispatchResult.Continue)) := by
  refine ⟨?_, ?_, ?_, ?_, ?_⟩
  · simp [dispatch, pressChar, press, hs]
  · simp [dispatch, pressChar, press, hs]
  · simp [dispatch, pressChar, press, hs]
  · intro c h1 h2 h3
    simp [dispatch, pressChar, press, hs, h1, h2, h3]
  · intro k hk
    cases k with
    | Char c => exact absurd rfl (hk c)
    | Enter => simp [dispatch, press, hs]
    | Backspace => simp [dispatch, press, hs]
    | Esc => simp [dispatch, press, hs]
    | Tab => simp [dispatch, press, hs]
    | Other => simp [dispatch, press, hs]

/-- Witness for C5 at a concrete Exiting state, exercising each conjunct. -/
theorem exiting_screen_transitions_witness :
    dispatch { App.new with current_screen := CurrentScreen.Exiting }
        (pressChar 'y') =
      ({ App.new with current_screen := CurrentScreen.Exiting },
        DispatchResult.ExitAndEmit) ∧
    dispatch { App.new with current_screen := CurrentScreen.Exiting }
        (pressChar 'z') =
      ({ App.new with current_screen := CurrentScreen.Exiting },
        DispatchResult.Continue) :=
  ⟨(exiting_screen_transitions _ rfl).1,
    (exiting_screen_transitions _ rfl).2.2.2.1 'z'
      (by decide) (by decide) (by decide)⟩

/-- C10: on the Editing screen, Tab is an involution on a set EditingField
(two presses restore the whole state), and one Tab from an absent field
sets it to Key. -/
theorem tab_toggle_involution (a : App)
    (hs : a.current_screen = CurrentScreen.Editing) :
    (∀ f, a.currently_editing = some f →
      (dispatch (dispatch a (press KeyCode.Tab)).1 (press KeyCode.Tab)).1 = a) ∧
    (a.currently_editing = none →
      dispatch a (press KeyCode.Tab) =
        ({ a with currently_editing := some CurrentlyEditing.Key },
          DispatchResult.Continue)) := by
  obtain ⟨ki, vi, ps, scr, ed⟩ := a
  simp only at hs
  subst hs
  constructor
  · intro f hf
    simp only at hf
    subst hf
    cases f <;> simp [dispatch, press, App.toggle_editing]
  · intro h
    simp only at h
    subst h
    simp [dispatch, press, App.toggle_editing]

/-- Witness for C10: double Tab at sampleValueState restores it, and one
Tab from an absent field on the Editing screen selects Key. -/
theorem tab_toggle_involution_witness :
    (dispatch (dispatch sampleValueState (press KeyCode.Tab)).1
        (press KeyCode.Tab)).1 = sampleValueState ∧
    dispatch { App.new with current_screen := CurrentScreen.Editing }
        (press KeyCode.Tab) =
      ({ App.new with
          current_screen := CurrentScreen.Editing
          currently_editing := some CurrentlyEditing.Key },
        DispatchResult.Continue) :=
  ⟨(tab_toggle_involution sampleValueState rfl).1 CurrentlyEditing.Value rfl,
    (tab_toggle_involution _ rfl).2 rfl⟩

end JsonEditor

namespace JsonEditor

/-- Concrete editing state exhibiting the Backspace routing defect: the
Value field is active and both buffers are non-empty. -/
def backspaceBugState : App :=
  { key_input := "a"
    value_input := "b"
    pairs := []
    current_screen := CurrentScreen.Editing
    currently_editing := some CurrentlyEditing.Value }

/-- C2: at backspaceBugState (EditingField = Value), Backspace pops the
last character of key_input and leaves value_input untouched — the source's
duplicated match pattern routes Backspace to the key buffer even when the
Value field is active. -/
theorem backspace_value_misroutes_to_key :
    (dispatch backspaceBugState (press KeyCode.Backspace)).1 =
      { key_input := ""
        value_input := "b"
        pairs := []
        current_screen := CurrentScreen.Editing
        currently_editing := some CurrentlyEditing.Value } := by
  decide

/-- Concrete editing state whose active buffer (value_input) is empty while
the inactive key buffer is not. -/
def emptyActiveBufferState : App :=
  { key_input := "x"
    value_input := ""
    pairs := []
    current_screen := CurrentScreen.Editing
    currently_editing := some CurrentlyEditing.Value }

/-- C7: at emptyActiveBufferState the currently active buffer is empty,
yet Backspace changes the state — it pops the inactive key buffer, so the
press is not the no-op the specification requires. -/
theorem backspace_empty_active_buffer_mutates :
    (dispatch emptyActiveBufferState (press KeyCode.Backspace)).1 ≠
      emptyActiveBufferState ∧
    (dispatch emptyActiveBufferState (press KeyCode.Backspace)).1.key_input = "" := by
  decide

/-- Key/state combinations that every screen's match treats as a no-op:
unmatched characters on Main and Exiting, non-character codes on Main and
Exiting, the Other code on Editing, and Enter, Backspace or a character
pressed while no field is being edited (plus Backspace on an empty key
buffer while the Key field is active). -/
def noopCombo (a : App) (k : KeyCode) : Bool :=
  match a.current_screen, k with
  | CurrentScreen.Main, KeyCode.Char c => !(c == 'e' || c == 'q')
  | CurrentScreen.Main, _ => true
  | CurrentScreen.Exiting, KeyCode.Char c => !(c == 'y' || c == 'n' || c == 'q')
  | CurrentScreen.Exiting, _ => true
  | CurrentScreen.Editing, KeyCode.Enter => a.currently_editing == none
  | CurrentScreen.Editing, KeyCode.Backspace =>
      a.currently_editing == none ||
        (a.currently_editing == some CurrentlyEditing.Key && a.key_input == "")
  | CurrentScreen.Editing, KeyCode.Char _ => a.currently_editing == none
  | CurrentScreen.Editing, KeyCode.Esc => false
  | CurrentScreen.Editing, KeyCode.Tab => false
  | CurrentScreen.Editing, KeyCode.Other => true

/-- C8: dispatch is total — every (state, event) pair has a defined
outcome — and every unmatched combination (noopCombo), including
empty-key-buffer Backspace and Enter or typing with an absent field, is a
pure no-op returning Continue. -/
theorem dispatch_total_unmatched_noop :
    (∀ (a : App) (ev : Event), ∃ out, dispatch a ev = out) ∧
    (∀ (a : App) (k : KeyCode), noopCombo a k = true →
      dispatch a (press k) = (a, DispatchResult.Continue)) := by
  constructor
  · intro a ev
    exact ⟨dispatch a ev, rfl⟩
  · intro a k h
    obtain ⟨ki, vi, ps, scr, ed⟩ := a
    cases scr with
    | Main =>
      cases k with
      | Char c =>
        simp only [noopCombo, Bool.not_eq_true', Bool.or_eq_false_iff,
          beq_eq_false_iff_ne, ne_eq] at h
        simp [dispatch, press, h.1, h.2]
      | Enter => rfl
      | Backspace => rfl
      | Esc => rfl
      | Tab => rfl
      | Other => rfl
    | Exiting =>
      cases k with
      | Char c =>
        simp only [noopCombo, Bool.not_eq_true', Bool.or_eq_false_iff,
          beq_eq_false_iff_ne, ne_eq] at h
        obtain ⟨⟨h1, h2⟩, h3⟩ := h
        simp [dispatch, press, h1, h2, h3]
      | Enter => rfl
      | Backspace => rfl
      | Esc => rfl
      | Tab => rfl
      | Other => rfl
    | Editing =>
      cases k with
      | Char c =>
        simp only [noopCombo, beq_iff_eq] at h
        subst h
        rfl
      | Enter =>
        simp only [noopCombo, beq_iff_eq] at h
        subst h
        rfl
      | Backspace =>
        simp only [noopCombo, Bool.or_eq_true, Bool.and_eq_true,
          beq_iff_eq] at h
        rcases h with h | ⟨h1, h2⟩
        · subst h; rfl
        · subst h1; subst h2
          simp only [dispatch, press]
          rfl
      | Esc => simp [noopCombo] at h
      | Tab => simp [noopCombo] at h
      | Other => rfl

/-- Witness for C8: Enter with an absent field on the Editing screen is a
no-op. -/
theorem dispatch_total_unmatched_noop_witness :
    dispatch { App.new with current_screen := CurrentScreen.Editing }
        (press KeyCode.Enter) =
      ({ App.new with current_screen := CurrentScreen.Editing },
        DispatchResult.Continue) :=
  dispatch_total_unmatched_noop.2
    { App.new with current_screen := CurrentScreen.Editing }
    KeyCode.Enter rfl

end JsonEditor

namespace JsonEditor

/-- Looking up the key just inserted by hashInsert finds the new value. -/
theorem lookup_hashInsert_self (m : List (String × String)) (k v : String) :
    List.lookup k (hashInsert m k v) = some v := by
  simp [hashInsert, List.lookup]

/-- hashInsert leaves the binding of every other key unchanged. -/
theorem lookup_hashInsert_of_ne (m : List (String × String)) (k v k2 : String)
    (h : k2 ≠ k) :
    List.lookup k2 (hashInsert m k v) = List.lookup k2 m := by
  have hbeq : (k2 == k) = false := beq_eq_false_iff_ne.mpr h
  simp only [hashInsert, List.lookup, hbeq]
  induction m with
  | nil => rfl
  | cons p t ih =>
    obtain ⟨p1, p2⟩ := p
    by_cases hp : p1 = k
    · have hne : (k2 == p1) = false := by
        subst hp
        exact hbeq
      simp [List.filter_cons, hp, List.lookup, hne, hbeq, ih]
    · by_cases hk2 : k2 = p1
      · simp [List.filter_cons, hp, List.lookup, hk2]
      · simp [List.filter_cons, hp, List.lookup, hk2, ih]

/-- hashInsert preserves uniqueness of keys. -/
theorem keys_nodup_hashInsert (m : List (String × String)) (k v : String)
    (h : (m.map Prod.fst).Nodup) :
    ((hashInsert m k v).map Prod.fst).Nodup := by
  simp only [hashInsert, List.map_cons, List.nodup_cons]
  constructor
  · intro hmem
    obtain ⟨p, hp, hfst⟩ := List.mem_map.mp hmem
    have := (List.mem_filter.mp hp).2
    simp [hfst] at this
  · exact h.sublist ((List.filter_sublist m).map Prod.fst)

/-- The commit configuration: Enter pressed on the Editing screen with the
Value field active. -/
def isCommit (a : App) (ev : Event) : Prop :=
  a.current_screen = CurrentScreen.Editing ∧
  a.currently_editing = some CurrentlyEditing.Value ∧
  ev = press KeyCode.Enter

instance (a : App) (ev : Event) : Decidable (isCommit a ev) := by
  unfold isCommit
  infer_instance

/-- C6: the Mapping changes only through the commit transition; a commit
binds the pre-commit key_input to the pre-commit value_input (replacing any
existing binding for that key, last write wins), leaves every other key's
binding unchanged, and keeps the keys unique. -/
theorem mapping_changes_only_at_commit :
    (∀ (a : App) (ev : Event), ¬ isCommit a ev →
      (dispatch a ev).1.pairs = a.pairs) ∧
    (∀ (a : App) (ev : Event), isCommit a ev →
      List.lookup a.key_input (dispatch a ev).1.pairs = some a.value_input) ∧
    (∀ (a : App) (ev : Event) (k2 : String), isCommit a ev →
      k2 ≠ a.key_input →
      List.lookup k2 (dispatch a ev).1.pairs = List.lookup k2 a.pairs) ∧
    (∀ (a : App) (ev : Event), (a.pairs.map Prod.fst).Nodup →
      ((dispatch a ev).1.pairs.map Prod.fst).Nodup) := by
  have commit_shape : ∀ (a : App) (ev : Event), isCommit a ev →
      (dispatch a ev).1.pairs = hashInsert a.pairs a.key_input a.value_input := by
    intro a ev hc
    obtain ⟨h1, h2, h3⟩ := hc
    subst h3
    obtain ⟨ki, vi, ps, scr, ed⟩ := a
    simp only at h1 h2
    subst h1; subst h2
    simp [dispatch, press, App.save_key_value]
  have frame : ∀ (a : App) (ev : Event), ¬ isCommit a ev →
      (dispatch a ev).1.pairs = a.pairs := by
    intro a ev hc
    obtain ⟨ki, vi, ps, scr, ed⟩ := a
    cases ev with
    | NonKey => rfl
    | Key key =>
      obtain ⟨code, kind⟩ := key
      cases kind with
      | Release => rfl
      | Press =>
        cases scr with
        | Main =>
          cases code with
          | Char c =>
            simp only [dispatch]
            repeat' split
            all_goals rfl
          | Enter => rfl
          | Backspace => rfl
          | Esc => rfl
          | Tab => rfl
          | Other => rfl
        | Exiting =>
          cases code with
          | Char c =>
            simp only [dispatch]
            repeat' split
            all_goals rfl
          | Enter => rfl
          | Backspace => rfl
          | Esc => rfl
          | Tab => rfl
          | Other => rfl
        | Editing =>
          cases code with
          | Char c =>
            cases ed with
            | none => rfl
            | some f => cases f <;> rfl
          | Enter =>
            cases ed with
            | none => rfl
            | some f =>
              cases f with
              | Key => rfl
              | Value =>
                exact absurd ⟨rfl, rfl, rfl⟩ hc
          | Backspace =>
            cases ed with
            | none => rfl
            | some f => cases f <;> rfl
          | Esc => rfl
          | Tab =>
            cases ed with
            | none => rfl
            | some f => cases f <;> rfl
          | Other => rfl
  refine ⟨frame, ?_, ?_, ?_⟩
  · intro a ev hc
    rw [commit_shape a ev hc]
    exact lookup_hashInsert_self a.pairs a.key_input a.value_input
  · intro a ev k2 hc hne
    rw [commit_shape a ev hc]
    exact lookup_hashInsert_of_ne a.pairs a.key_input a.value_input k2 hne
  · intro a ev hnd
    by_cases hc : isCommit a ev
    · rw [commit_shape a ev hc]
      exact keys_nodup_hashInsert a.pairs a.key_input a.value_input hnd
    · rw [frame a ev hc]
      exact hnd

/-- Witness for C6: dispatching a character press on Main leaves the empty
Mapping unchanged, and a concrete commit binds "ab" to "1". -/
theorem mapping_changes_only_at_commit_witness :
    (dispatch App.new (pressChar 'e')).1.pairs = App.new.pairs ∧
    List.lookup "ab" (dispatch sampleValueState (press KeyCode.Enter)).1.pairs =
      some "1" := by
  refine ⟨mapping_changes_only_at_commit.1 App.new (pressChar 'e') ?_,
    mapping_changes_only_at_commit.2.1 sampleValueState (press KeyCode.Enter)
      ⟨rfl, rfl, rfl⟩⟩
  intro hcomm
  exact absurd hcomm.1 (by decide)

end JsonEditor

namespace JsonEditor

/-- The EditingField invariant: the field is absent unless the Editing
screen is active. -/
def appInv (a : App) : Prop :=
  a.currently_editing = none ∨ a.current_screen = CurrentScreen.Editing

/-- Dispatching one event preserves the EditingField invariant. -/
theorem dispatch_preserves_appInv (a : App) (ev : Event) (h : appInv a) :
    appInv (dispatch a ev).1 := by
  obtain ⟨ki, vi, ps, scr, ed⟩ := a
  cases ev with
  | NonKey => exact h
  | Key key =>
    obtain ⟨code, kind⟩ := key
    cases kind with
    | Release => exact h
    | Press =>
      cases scr with
      | Main =>
        have hed : ed = none := by
          rcases h with h1 | h1
          · exact h1
          · exact absurd h1 (by simp)
        cases code with
        | Char c =>
          simp only [dispatch]
          repeat' split
          all_goals first
            | exact h
            | exact Or.inr rfl
            | exact Or.inl hed
        | Enter => exact h
        | Backspace => exact h
        | Esc => exact h
        | Tab => exact h
        | Other => exact h
      | Exiting =>
        cases code with
        | Char c =>
          simp only [dispatch]
          repeat' split
          all_goals exact h
        | Enter => exact h
        | Backspace => exact h
        | Esc => exact h
        | Tab => exact h
        | Other => exact h
      | Editing =>
        cases code with
        | Enter =>
          cases ed with
          | none => exact h
          | some f =>
            cases f with
            | Key => exact Or.inr rfl
            | Value => exact Or.inl rfl
        | Backspace =>
          cases ed with
          | none => exact h
          | some f => cases f <;> exact Or.inr rfl
        | Esc => exact Or.inl rfl
        | Tab =>
          cases ed with
          | none => exact Or.inr rfl
          | some f => cases f <;> exact Or.inr rfl
        | Char c =>
          cases ed with
          | none => exact h
          | some f => cases f <;> exact Or.inr rfl
        | Other => exact h

/-- C3: on every state reachable from the initial state by dispatching
events, EditingField is non-absent only when Screen = Editing; and any
dispatch that moves the screen out of Editing leaves EditingField absent. -/
theorem editing_field_invariant :
    (∀ es : List Event, appInv (runEvents App.new es)) ∧
    (∀ (a : App) (ev : Event), a.current_screen = CurrentScreen.Editing →
      (dispatch a ev).1.current_screen ≠ CurrentScreen.Editing →
      (dispatch a ev).1.currently_editing = none) := by
  constructor
  · intro es
    suffices h : ∀ a, appInv a → appInv (runEvents a es) from
      h App.new (Or.inl rfl)
    induction es with
    | nil => intro a h; exact h
    | cons e es ih =>
      intro a h
      exact ih _ (dispatch_preserves_appInv a e h)
  · intro a ev hs hne
    obtain ⟨ki, vi, ps, scr, ed⟩ := a
    simp only at hs
    subst hs
    cases ev with
    | NonKey => exact absurd rfl hne
    | Key key =>
      obtain ⟨code, kind⟩ := key
      cases kind with
      | Release => exact absurd rfl hne
      | Press =>
        cases code with
        | Enter =>
          cases ed with
          | none => exact absurd rfl hne
          | some f =>
            cases f with
            | Key => exact absurd rfl hne
            | Value => rfl
        | Backspace =>
          cases ed with
          | none => exact absurd rfl hne
          | some f => cases f <;> exact absurd rfl hne
        | Esc => rfl
        | Tab =>
          cases ed with
          | none => exact absurd rfl hne
          | some f => cases f <;> exact absurd rfl hne
        | Char c =>
          cases ed with
          | none => exact absurd rfl hne
          | some f => cases f <;> exact absurd rfl hne
        | Other => exact absurd rfl hne

/-- Witness for C3: the invariant holds after pressing 'e' from the start
state, and Esc from a concrete editing state leaves the field absent. -/
theorem editing_field_invariant_witness :
    appInv (runEvents App.new [pressChar 'e']) ∧
    (dispatch sampleValueState (press KeyCode.Esc)).1.currently_editing = none :=
  ⟨editing_field_invariant.1 [pressChar 'e'],
    editing_field_invariant.2 sampleValueState (press KeyCode.Esc) rfl
      (by decide)⟩

/-- The state produced by pressing 'q' from the start state: the Exiting
confirmation screen over an empty Mapping. -/
def exitingSample : App :=
  { key_input := ""
    value_input := ""
    pairs := []
    current_screen := CurrentScreen.Exiting
    currently_editing := none }

/-- C9: the serializer is invoked exactly when the loop ends with
ExitAndEmit, and then it receives the final Mapping; on ExitDiscard it is
never invoked. -/
theorem serializer_exactly_on_emit :
    (∀ (es : List Event) (a : App),
      run_app App.new es = some (a, DispatchResult.ExitAndEmit) →
      mainSerializerArg es = some a.pairs) ∧
    (∀ (es : List Event) (a : App),
      run_app App.new es = some (a, DispatchResult.ExitDiscard) →
      mainSerializerArg es = none) ∧
    (∀ (es : List Event) (m : List (String × String)),
      mainSerializerArg es = some m →
      ∃ a, run_app App.new es = some (a, DispatchResult.ExitAndEmit) ∧
        m = a.pairs) := by
  refine ⟨?_, ?_, ?_⟩
  · intro es a h
    simp [mainSerializerArg, h]
  · intro es a h
    simp [mainSerializerArg, h]
  · intro es m h
    unfold mainSerializerArg at h
    rcases hr : run_app App.new es with _ | p
    · rw [hr] at h
      simp at h
    · obtain ⟨a, r⟩ := p
      cases r with
      | Continue =>
        rw [hr] at h
        simp at h
      | ExitDiscard =>
        rw [hr] at h
        simp at h
      | ExitAndEmit =>
        rw [hr] at h
        simp only [Option.some_inj] at h
        exact ⟨a, rfl, h.symm⟩

/-- Witness for C9: pressing q then y emits the (empty) final Mapping;
pressing q then n never reaches the serializer. -/
theorem serializer_exactly_on_emit_witness :
    mainSerializerArg [pressChar 'q', pressChar 'y'] =
      some exitingSample.pairs ∧
    mainSerializerArg [pressChar 'q', pressChar 'n'] = none :=
  ⟨serializer_exactly_on_emit.1 [pressChar 'q', pressChar 'y'] exitingSample
      (by decide),
    serializer_exactly_on_emit.2.1 [pressChar 'q', pressChar 'n'] exitingSample
      (by decide)⟩

end JsonEditor
